import Mathlib

/-!
Verification of `ome_merge.py` (jburel/snoopycrimecop): a shallow embedding of
the pull-request filtering, merge sequencing, submodule recursion, remote
cleanup, comment directive extraction and origin-URL parsing of the script,
together with theorems settling the specified properties.

Conventions: Python strings are Lean `String`s; the handful of Python string
primitives the script relies on (`str.lower`, `str.split(sep)`,
`str.splitlines`, `str.startswith`, `str.replace(pat, "")`, `str.endswith`,
slicing, `int(...)` on digit strings) are re-implemented below by structural
recursion over the character list so that every definition evaluates inside
the kernel.  `None`-or-list arguments (`include`, `exclude`) are modelled as
plain lists, `[]` playing the role of `None` (the script only ever tests their
truthiness, which coincides for `None` and `[]`).
-/

namespace OmeMerge

/-- Models Python `str.lower` (ASCII case folding, which is what the script's
label comparisons rely on). -/
def lowerStr (s : String) : String := String.mk (s.data.map Char.toLower)

/-- Helper for the character-level string primitives: strip `pat` from the
front of `s`, returning the rest, or `none` when `pat` is not a prefix. -/
def dropPat : List Char → List Char → Option (List Char)
  | [], s => some s
  | _ :: _, [] => none
  | p :: ps, c :: cs => if p = c then dropPat ps cs else none

/-- Models Python `line.startswith(pat)`. -/
def pyStartsWith (pat s : String) : Bool := (dropPat pat.data s.data).isSome

/-- Fuelled worker for `pyRemoveAll`; the fuel is the length of the input, an
upper bound on the number of steps. -/
def removeAllAux (p : Char) (ps : List Char) : Nat → List Char → List Char
  | _, [] => []
  | 0, s => s
  | fuel + 1, c :: cs =>
    match dropPat (p :: ps) (c :: cs) with
    | some rest => removeAllAux p ps fuel rest
    | none => c :: removeAllAux p ps fuel cs

/-- Models Python `s.replace(pat, "")` for a non-empty `pat`: every
(left-to-right, non-overlapping) occurrence of `pat` in `s` is removed. -/
def pyRemoveAll (pat s : String) : String :=
  match pat.data with
  | [] => s
  | p :: ps => String.mk (removeAllAux p ps s.data.length s.data)

/-- Worker for `splitlines`, accumulating the current line in reverse. -/
def splitChars : List Char → List Char → List String
  | [], acc => match acc with
    | [] => []
    | _ => [String.mk acc.reverse]
  | '\r' :: '\n' :: rest, acc => String.mk acc.reverse :: splitChars rest []
  | '\r' :: rest, acc => String.mk acc.reverse :: splitChars rest []
  | '\n' :: rest, acc => String.mk acc.reverse :: splitChars rest []
  | c :: rest, acc => splitChars rest (c :: acc)

/-- Models Python `str.splitlines` (for the `\n`, `\r\n` and `\r` terminators
that can occur in pull-request comment bodies): no trailing empty line is
produced. -/
def splitlines (s : String) : List String := splitChars s.data []

/-- Worker for `splitOnChar`. -/
def splitOnCharAux (sep : Char) : List Char → List Char → List String
  | [], acc => [String.mk acc.reverse]
  | c :: cs, acc =>
    if c = sep then String.mk acc.reverse :: splitOnCharAux sep cs []
    else splitOnCharAux sep cs (c :: acc)

/-- Models Python `s.split(sep)` for a one-character separator. -/
def splitOnChar (sep : Char) (s : String) : List String := splitOnCharAux sep s.data []

/-- Models Python `s.endswith(suf)`. -/
def strEndsWith (suf s : String) : Bool := (dropPat suf.data.reverse s.data.reverse).isSome

/-- Models the Python slice `s[:-n]` (drop the last `n` characters). -/
def strDropRight (n : Nat) (s : String) : String :=
  String.mk (s.data.take (s.data.length - n))

/-- Models Python `int(s)` on the digit strings the script feeds it (the last
component of an issue URL). -/
def parseNat (s : String) : Nat := s.data.foldl (fun n c => n * 10 + (c.toNat - 48)) 0

/-- The snapshot of a pull request taken by `Data.__init__`
(src/ome_merge.py:156-176): head SHA, base ref, author login, title, issue
labels and the bodies of the issue comments. -/
structure PRData where
  issue_url : String
  title : String
  sha : String
  base : String
  login : String
  labels : List String
  comments : List String
deriving DecidableEq

/-- Models `Data.num = int(pr.issue_url.split("/")[-1])` (src line 165). -/
def PRData.num (d : PRData) : Nat := parseNat ((splitOnChar '/' d.issue_url).getLastD "")

/-- Models `Data.test_directories` (src lines 185-192): for every comment
line starting with `--test`, the line with all occurrences of `--test`
removed (Python `line.replace("--test", "")`) is collected, in comment
order then line order. -/
def PRData.test_directories (d : PRData) : List String :=
  d.comments.flatMap fun c =>
    ((splitlines c).filter fun l => pyStartsWith "--test" l).map fun l => pyRemoveAll "--test" l

/-- Models the label test `filter.lower() in [x.lower() for x in labels]`
applied across a filter list (src lines 255-256 and 262-263): some filter's
lower-cased form occurs among the lower-cased labels. -/
def labelHit (filters labels : List String) : Bool :=
  filters.any fun f => (labels.map lowerStr).contains (lowerStr f)

/-- Models the first phase of the candidate check in `OME.__init__`
(src lines 249-258): the base ref must match, and then the author must be a
public organization member, or otherwise some include label must match
(only when an include list was given). `m` is
`org.has_in_public_members` applied to the head user's login. -/
def baseFound (m : String → Bool) (b : String) (incl : List String) (d : PRData) : Bool :=
  if d.base == b then
    if m d.login then true
    else if incl.isEmpty then false
    else labelHit incl d.labels
  else false

/-- Models the full candidate check of `OME.__init__` (src lines 245-265):
the include phase, then the exclude phase which clears `found` when an
exclude label matches (only run when an exclude list was given). -/
def prFound (m : String → Bool) (b : String) (incl excl : List String) (d : PRData) : Bool :=
  if baseFound m b incl d && !excl.isEmpty then !labelHit excl d.labels
  else baseFound m b incl d

/-- Case-insensitive intersection of a filter list with a label list, the
notion of "labels intersect the set" implemented by the script. -/
def labelsIntersect (filters labels : List String) : Prop :=
  ∃ f ∈ filters, lowerStr f ∈ labels.map lowerStr

/-- Models `self.storage` at the end of `OME.__init__` (src lines 245-278):
the qualifying pull requests, sorted ascending by number
(`self.storage.sort(lambda a, b: cmp(a.num, b.num))`). -/
def storage (m : String → Bool) (b : String) (incl excl : List String)
    (prs : List PRData) : List PRData :=
  (prs.filter (prFound m b incl excl)).mergeSort fun a c => Nat.ble a.num c.num

/-- Models `self.unique_logins` (src lines 240 and 268), as a canonical
duplicate-free list; the set's iteration order is unspecified, so theorems
quantify over any permutation of this list. -/
def uniqueLogins (m : String → Bool) (b : String) (incl excl : List String)
    (prs : List PRData) : List String :=
  ((prs.filter (prFound m b incl excl)).map PRData.login).dedup

/-- Models `self.commit_msg` built in `OME.__init__` (src lines 210-217). -/
def commitMsg (b : String) (incl excl : List String) : String :=
  let m0 := "merge" ++ "_into_" ++ b
  let m1 := if incl.isEmpty then m0 else m0 ++ "+" ++ String.intercalate "+" incl
  if excl.isEmpty then m1 else m1 ++ "-" ++ String.intercalate "-" excl

/-- Models the lines written to `directories.txt` during the candidate loop
(src lines 267-277): each qualifying pull request contributes the lines of
its `test_directories()`, in discovery order. -/
def sideFileLines (m : String → Bool) (b : String) (incl excl : List String)
    (prs : List PRData) : List String :=
  (prs.filter (prFound m b incl excl)).flatMap PRData.test_directories

/-- The remote name `"merge_%s" % user` (src line 309). -/
def remoteKey (u : String) : String := "merge_" ++ u

/-- The fork URL `"git://github.com/%s/%s.git" % (user, self.name)` (src line 310). -/
def remoteUrl (u name : String) : String :=
  "git://github.com/" ++ u ++ "/" ++ name ++ ".git"

/-- The `git remote add` invocation of `OME.merge` (src line 311). -/
def addRemoteCmd (u name : String) : List String :=
  ["git", "remote", "add", remoteKey u, remoteUrl u name]

/-- The `git fetch` invocation of `OME.merge` (src line 313). -/
def fetchCmd (u : String) : List String := ["git", "fetch", remoteKey u]

/-- The `git merge --no-ff` invocation of `OME.merge` (src lines 316-317),
with message `"%s: PR %s (%s)" % (commit_msg, num, title)`. -/
def mergeCmd (cm : String) (d : PRData) : List String :=
  ["git", "merge", "--no-ff", "-m",
    cm ++ ": PR " ++ toString d.num ++ " (" ++ d.title ++ ")", d.sha]

/-- The `git submodule update` invocation ending `OME.merge` (src line 320). -/
def submoduleUpdateCmd : List String := ["git", "submodule", "update"]

/-- The git commands issued by one `OME.merge` pass (src lines 306-320):
per user of `unique_logins` (given here as the list `users`, in whatever
order the set iterates) a remote add followed by a fetch; then one merge per
stored pull request, in storage order; then one submodule update. -/
def mergeTrace (users : List String) (name cm : String) (st : List PRData) :
    List (List String) :=
  (users.flatMap fun u => [addRemoteCmd u name, fetchCmd u])
    ++ st.map (mergeCmd cm)
    ++ [submoduleUpdateCmd]

/-- Models `OME.cleanup` (src lines 365-370): iterate over the registered
remote keys, attempting `git remote rm` on each; a failed removal (`ok k =
false`, the caught exception branch) is logged and the loop continues.
Returns the list of keys whose removal was attempted and the git remote list
left behind. -/
def cleanupRun : List String → (String → Bool) → List String → List String × List String
  | [], _, remotes => ([], remotes)
  | k :: rest, ok, remotes =>
    let remotes' := if ok k then remotes.erase k else remotes
    let r := cleanupRun rest ok remotes'
    (k :: r.1, r.2)

/-- The contents of `self.remotes` after the add/fetch loop of `OME.merge`
has processed its first `j` users (src lines 308-313); since a remote key is
registered immediately after its successful `git remote add`, every point at
which the pass can raise leaves the registry in this shape. -/
def registryAt (users : List String) (j : Nat) : List String :=
  (users.take j).map remoteKey

/-- A step of sequential Python code acting on state `σ`: it returns the
state at exit together with `some` error when it raised. -/
def Proc (σ : Type) : Type := σ → σ × Option String

/-- Sequencing of two steps: the second runs only when the first did not
raise. -/
def pseq {σ : Type} (a b : Proc σ) : Proc σ := fun s =>
  match a s with
  | (s', none) => b s'
  | (s', some e) => (s', some e)

/-- Models a Python `try: body finally: fin` block: `fin` runs whether or
not `body` raised; an error raised by `fin` replaces the pending one. -/
def tryFinallyP {σ : Type} (body fin : Proc σ) : Proc σ := fun s =>
  match body s with
  | (s', none) => fin s'
  | (s', some e) =>
    match fin s' with
    | (s'', none) => (s'', some e)
    | (s'', some e') => (s'', some e')

/-- Models `self.cd(dir)` / `os.chdir` (src lines 284-286) on a state that is
the current working directory; it never raises. -/
def cdP (dir : String) : Proc String := fun _ => (dir, none)

/-- Models one iteration of the submodule loop of `OME.submodules`
(src lines 343-358):
`try: cd(dir); body finally: (try: cleanup finally: cd(cwd))`, where `body`
covers constructing the child pass, merging or reporting and recursing, and
`cleanup` covers the `if ome: ome.cleanup()` line; both are arbitrary steps
here. -/
def subStep (cwd dir : String) (body cleanup : Proc String) : Proc String :=
  tryFinallyP (pseq (cdP dir) body) (tryFinallyP cleanup (cdP cwd))

/-- Models the organization/repository lookup of `OME.__init__`
(src lines 232-237): `get_organization` is called outside any handler, so
its failure propagates; `get_repo` is wrapped in `try/except`, its failure
is logged (`"Failed to find %s" % name`) and execution continues with
`self.repo` left unset (`none`).  Returns the logged messages and either the
propagated error or the `(organization, repository handle)` pair. -/
def constructLookup (orgRes repoRes : Except String String) (name : String) :
    List String × Except String (String × Option String) :=
  match orgRes with
  | .error e => ([], .error e)
  | .ok o =>
    match repoRes with
    | .ok r => ([], .ok (o, some r))
    | .error _ => (["Failed to find " ++ name], .ok (o, none))

/-- Whether an `Except` result is a success. -/
def isOkE {α : Type} (e : Except String α) : Bool :=
  match e with
  | .ok _ => true
  | .error _ => false

/-- Models the origin-URL parsing of `OME.submodules` (src lines 334-341):
split on `/`, keep the last two components as `(org, repo)` (fewer than two
components makes the Python tuple unpacking raise, modelled as `none`), take
the part of `org` after the last `:` when one occurs, and strip a trailing
`.git` from `repo`. -/
def parseOriginUrl (url : String) : Option (String × String) :=
  let parts := splitOnChar '/' url
  match parts.drop (parts.length - 2) with
  | [org0, repo0] =>
    let org1 := if org0.data.contains ':' then (splitOnChar ':' org0).getLastD "" else org0
    let repo1 := if strEndsWith ".git" repo0 then strDropRight 4 repo0 else repo0
    some (org1, repo1)
  | _ => none

mutual
/-- A repository as seen by the recursive submodule walk: its name, its open
pull requests, and its submodules. -/
inductive RepoTree : Type where
  | node (name : String) (prs : List PRData) (subs : RepoForest) : RepoTree

/-- A list of submodule repositories (a separate mutual type so that the
walk can recurse structurally). -/
inductive RepoForest : Type where
  | nil : RepoForest
  | cons (t : RepoTree) (ts : RepoForest) : RepoForest
end

/-- The aggregate commit command ending `OME.submodules` (src lines 360-362):
`git commit --allow-empty -a -n -m "<commit_msg>: Update all modules w/o
hooks"`. -/
def aggCommitCmd (b : String) (incl excl : List String) : List String :=
  ["git", "commit", "--allow-empty", "-a", "-n", "-m",
    commitMsg b incl excl ++ ": Update all modules w/o hooks"]

/-- The `git remote rm` commands issued when the parent cleans up a child
pass (src lines 355-356 with 365-370), one per remote the child registered. -/
def childCleanupCmds (m : String → Bool) (b : String) (incl excl : List String) :
    RepoTree → List (List String)
  | .node _ prs _ =>
    (uniqueLogins m b incl excl prs).map fun u => ["git", "remote", "rm", remoteKey u]

mutual
/-- The git commands of merging one repository and recursing into its
submodules (`ome.merge()` at src lines 306-320 followed by
`ome.submodules()` at src lines 322-362, merge mode), together with the
final value of `self.modifications`: the merges performed here plus every
child's accumulated count, the aggregate commit being appended exactly when
that count is nonzero.  The constant status/log commands of `OME.__init__`
are omitted from the trace as they carry no data. -/
def runNode (m : String → Bool) (b : String) (incl excl : List String) :
    RepoTree → List (List String) × Nat
  | .node name prs subs =>
    let st := storage m b incl excl prs
    let tr := mergeTrace (uniqueLogins m b incl excl prs) name (commitMsg b incl excl) st
    let sub := runForest m b incl excl subs
    let total := st.length + sub.2
    (tr ++ sub.1 ++ (if total = 0 then [] else [aggCommitCmd b incl excl]), total)

/-- The submodule loop of `OME.submodules` (src lines 330-358): process each
child in turn, clean up its remotes, and accumulate
`self.modifications += ome.modifications`. -/
def runForest (m : String → Bool) (b : String) (incl excl : List String) :
    RepoForest → List (List String) × Nat
  | .nil => ([], 0)
  | .cons t ts =>
    let r := runNode m b incl excl t
    let rs := runForest m b incl excl ts
    (r.1 ++ childCleanupCmds m b incl excl t ++ rs.1, r.2 + rs.2)
end

mutual
/-- The structurally defined modification count of a repository: its own
qualifying pull requests plus the totals of its submodules. -/
def totalMods (m : String → Bool) (b : String) (incl excl : List String) :
    RepoTree → Nat
  | .node _ prs subs =>
    (prs.filter (prFound m b incl excl)).length + totalForest m b incl excl subs

/-- Sum of `totalMods` over a forest. -/
def totalForest (m : String → Bool) (b : String) (incl excl : List String) :
    RepoForest → Nat
  | .nil => 0
  | .cons t ts => totalMods m b incl excl t + totalForest m b incl excl ts
end

/-- The commands a repository level emits before its aggregate-commit
decision: its own merge pass followed by the whole submodule loop. -/
def levelBody (m : String → Bool) (b : String) (incl excl : List String) :
    RepoTree → List (List String)
  | .node name prs subs =>
    mergeTrace (uniqueLogins m b incl excl prs) name (commitMsg b incl excl)
        (storage m b incl excl prs)
      ++ (runForest m b incl excl subs).1

/-- The lines printed for one candidate list by the loop body of `OME.info`
(src lines 299-304): a label line, a description line, and a blank line per
entry. -/
def infoLines (st : List PRData) : List String :=
  st.flatMap fun d =>
    ["# " ++ String.intercalate " " d.labels,
      d.issue_url ++ " " ++ d.title ++ " by " ++ d.login ++ " for \t\t[???]",
      ""]

/-- Models `OME.info` (src lines 299-304).  The loop iterates `ome.storage`
where `ome` is the module-global variable bound in `__main__` to the
top-level pass, not `self`, so the printed candidates come from the
top-level storage; the receiver's own storage (`selfStorage`) is ignored,
which is why it does not occur on the right-hand side. -/
def infoOutput (globalStorage selfStorage : List PRData) : List String :=
  infoLines globalStorage

/-- Fixture: everyone is a public organization member. -/
def memberAll : String → Bool := fun _ => true

/-- Fixture: nobody is a public organization member. -/
def memberNone : String → Bool := fun _ => false

/-- Fixture: a pull request carrying one label, used to instantiate the
filter theorems. -/
def prBoth : PRData :=
  { issue_url := "https://github.com/openmicroscopy/openmicroscopy/issues/42"
    title := "breaking change"
    sha := "deadbeef"
    base := "develop"
    login := "mallory"
    labels := ["breaking"]
    comments := [] }

/-- Fixture: a qualifying pull request whose single comment carries a
`--test` directive. -/
def prTestFoo : PRData :=
  { issue_url := "https://github.com/openmicroscopy/openmicroscopy/issues/12"
    title := "add foo tests"
    sha := "abc123"
    base := "develop"
    login := "alice"
    labels := []
    comments := ["--test integration/foo"] }

/-- Fixture pull requests numbered 7, 3 and 5, listed out of order. -/
def pr7 : PRData :=
  { issue_url := "https://github.com/openmicroscopy/openmicroscopy/issues/7"
    title := "seven", sha := "sha7", base := "develop", login := "carol"
    labels := [], comments := [] }

/-- Fixture pull request numbered 3. -/
def pr3 : PRData :=
  { issue_url := "https://github.com/openmicroscopy/openmicroscopy/issues/3"
    title := "three", sha := "sha3", base := "develop", login := "alice"
    labels := [], comments := [] }

/-- Fixture pull request numbered 5. -/
def pr5 : PRData :=
  { issue_url := "https://github.com/openmicroscopy/openmicroscopy/issues/5"
    title := "five", sha := "sha5", base := "develop", login := "bob"
    labels := [], comments := [] }

/-- The claim's example candidate list, numbered `[7, 3, 5]`. -/
def prs753 : List PRData := [pr7, pr3, pr5]

/-- Fixture: the top-level repository's single candidate (for the info-mode
analysis). -/
def prTop : PRData :=
  { issue_url := "https://github.com/openmicroscopy/openmicroscopy/issues/21"
    title := "top level work", sha := "aaa111", base := "develop", login := "alice"
    labels := ["develop"], comments := [] }

/-- Fixture: a submodule repository's own single candidate, distinct from
`prTop`. -/
def prSub : PRData :=
  { issue_url := "https://github.com/openmicroscopy/bioformats/issues/8"
    title := "submodule work", sha := "bbb222", base := "develop", login := "bob"
    labels := ["develop"], comments := [] }

theorem labelHit_iff (fs ls : List String) :
    labelHit fs ls = true ↔ labelsIntersect fs ls := by
  simp [labelHit, labelsIntersect, List.any_eq_true, List.contains, List.elem_iff]

theorem labelsIntersect_nil (ls : List String) : ¬ labelsIntersect [] ls := by
  rintro ⟨f, hf, -⟩
  exact absurd hf (List.not_mem_nil f)

instance decLabelsIntersect (fs ls : List String) : Decidable (labelsIntersect fs ls) := by
  unfold labelsIntersect
  infer_instance

theorem baseFound_iff (m : String → Bool) (b : String) (incl : List String) (d : PRData) :
    baseFound m b incl d = true
      ↔ (d.base = b ∧ (m d.login = true ∨ labelsIntersect incl d.labels)) := by
  unfold baseFound
  cases hb : d.base == b with
  | false =>
    have hne : d.base ≠ b := by simpa using hb
    simp [hb, hne]
  | true =>
    have hbase : d.base = b := by simpa using hb
    cases hm : m d.login with
    | true => simp [hb, hm, hbase]
    | false =>
      cases he : incl.isEmpty with
      | true =>
        have h0 : incl = [] := List.isEmpty_iff.mp he
        simp [hb, hm, hbase, h0, labelsIntersect_nil]
      | false =>
        simp [hb, hm, he, hbase, labelHit_iff]

/-- C1: a pull request qualifies for merge iff its base branch equals the
target base AND (its author is a public organization member OR its labels
intersect the include set, case-insensitively) AND its labels do not
intersect the exclude set; in particular a pull request whose labels
intersect both the include and the exclude set is excluded (exclude
dominates). -/
theorem qualification_iff (m : String → Bool) (b : String) (incl excl : List String)
    (d : PRData) :
    (prFound m b incl excl d = true
      ↔ (d.base = b ∧ (m d.login = true ∨ labelsIntersect incl d.labels)
          ∧ ¬ labelsIntersect excl d.labels))
    ∧ (labelsIntersect incl d.labels → labelsIntersect excl d.labels →
        prFound m b incl excl d = false) := by
  have main : prFound m b incl excl d = true
      ↔ (d.base = b ∧ (m d.login = true ∨ labelsIntersect incl d.labels)
          ∧ ¬ labelsIntersect excl d.labels) := by
    cases hf : baseFound m b incl d with
    | false =>
      have hpf : prFound m b incl excl d = false := by
        unfold prFound
        simp [hf]
      rw [hpf]
      constructor
      · intro h
        exact absurd h Bool.false_ne_true
      · rintro ⟨h1, h2, -⟩
        have hbt := (baseFound_iff m b incl d).mpr ⟨h1, h2⟩
        rw [hf] at hbt
        exact hbt
    | true =>
      have hbase := (baseFound_iff m b incl d).mp hf
      cases he : excl.isEmpty with
      | true =>
        have h0 : excl = [] := List.isEmpty_iff.mp he
        have hpf : prFound m b incl excl d = true := by
          unfold prFound
          simp [hf, h0]
        rw [hpf]
        simp [hbase.1, hbase.2, h0, labelsIntersect_nil]
      | false =>
        have hpf : prFound m b incl excl d = !labelHit excl d.labels := by
          unfold prFound
          simp [hf, he]
        rw [hpf]
        constructor
        · intro h
          refine ⟨hbase.1, hbase.2, ?_⟩
          rw [← labelHit_iff]
          intro hc
          rw [hc] at h
          simp at h
        · rintro ⟨-, -, h⟩
          rw [← labelHit_iff] at h
          cases hlh : labelHit excl d.labels with
          | false => rfl
          | true => exact absurd hlh h
  refine ⟨main, fun _ hexc => ?_⟩
  cases hp : prFound m b incl excl d with
  | false => rfl
  | true => exact absurd (main.mp hp).2.2 (not_not_intro hexc)

/-- Witness for `qualification_iff`: a pull request labelled `breaking`
against the right base, with `breaking` in both the include and the exclude
list, is excluded. -/
theorem qualification_iff_witness :
    prFound memberNone "develop" ["breaking"] ["breaking"] prBoth = false :=
  (qualification_iff memberNone "develop" ["breaking"] ["breaking"] prBoth).2
    (by decide) (by decide)

theorem labelHit_lowered (fs ls : List String) :
    labelHit fs ls = (fs.map lowerStr).any fun f => (ls.map lowerStr).contains f := by
  rw [List.any_map]
  rfl

/-- C10: include- and exclude-label matching is case-insensitive — replacing
the pull request's labels and the filter lists by any lists with the same
lower-cased forms leaves the qualification verdict unchanged. -/
theorem label_case_insensitive (m : String → Bool) (b : String)
    (incl incl' excl excl' labels labels' : List String) (d : PRData)
    (hI : incl'.map lowerStr = incl.map lowerStr)
    (hE : excl'.map lowerStr = excl.map lowerStr)
    (hL : labels'.map lowerStr = labels.map lowerStr) :
    prFound m b incl' excl' { d with labels := labels' }
      = prFound m b incl excl { d with labels := labels } := by
  have hlen : ∀ {xs ys : List String}, xs.map lowerStr = ys.map lowerStr →
      xs.isEmpty = ys.isEmpty := by
    intro xs ys h
    have : xs.length = ys.length := by
      simpa using congrArg List.length h
    cases xs <;> cases ys <;> simp_all
  have hhit : ∀ (fs fs' ls ls' : List String), fs'.map lowerStr = fs.map lowerStr →
      ls'.map lowerStr = ls.map lowerStr → labelHit fs' ls' = labelHit fs ls := by
    intro fs fs' ls ls' h1 h2
    rw [labelHit_lowered, labelHit_lowered, h1, h2]
  have hbf : baseFound m b incl' { d with labels := labels' }
      = baseFound m b incl { d with labels := labels } := by
    unfold baseFound
    simp only [hlen hI, hhit incl incl' labels labels' hI hL]
  unfold prFound
  rw [hbf, hlen hE, hhit excl excl' labels labels' hE hL]

/-- Witness for `label_case_insensitive`: flipping the case of both the
label and the include filter leaves the verdict unchanged. -/
theorem label_case_insensitive_witness :
    prFound memberNone "develop" ["oK"] [] { prBoth with labels := ["OK"] }
      = prFound memberNone "develop" ["Ok"] [] { prBoth with labels := ["ok"] } :=
  label_case_insensitive memberNone "develop" ["Ok"] ["oK"] [] [] ["ok"] ["OK"] prBoth
    (by decide) (by decide) (by decide)

/-- C5: submodule origin-URL parsing yields organization and repository for
both the colon form with `.git` suffix and the plain slash form. -/
theorem submodule_url_parsing :
    parseOriginUrl "git@github.com:org/repo.git" = some ("org", "repo")
      ∧ parseOriginUrl "https://github.com/org/repo" = some ("org", "repo") := by
  constructor
  · rfl
  · rfl

/-- C8 counterexample: when the organization lookup fails (and the
repository lookup would succeed), construction neither logs the failure nor
continues — the error propagates out of `OME.__init__`, aborting it. -/
theorem org_lookup_failure_aborts :
    (constructLookup (Except.error "no such organization") (Except.ok "openmicroscopy") "openmicroscopy").1 = []
      ∧ isOkE (constructLookup (Except.error "no such organization") (Except.ok "openmicroscopy") "openmicroscopy").2 = false := by
  constructor
  · rfl
  · rfl

/-- C8 (amended): a repository-lookup failure is logged and execution
continues with an unset repository handle; an organization-lookup failure
propagates unlogged and aborts construction. -/
theorem repo_lookup_failure_nonfatal (orgRes repoRes : Except String String) (name : String) :
    (∀ o e, orgRes = Except.ok o → repoRes = Except.error e →
      constructLookup orgRes repoRes name = (["Failed to find " ++ name], Except.ok (o, none)))
    ∧ (∀ e, orgRes = Except.error e →
      constructLookup orgRes repoRes name = ([], Except.error e)) := by
  constructor
  · rintro o e rfl rfl
    rfl
  · rintro e rfl
    rfl

/-- Witness for `repo_lookup_failure_nonfatal`: a missing repository is
logged and leaves the handle unset while construction continues. -/
theorem repo_lookup_failure_nonfatal_witness :
    constructLookup (Except.ok "openmicroscopy") (Except.error "missing") "bioformats"
      = (["Failed to find bioformats"], Except.ok ("openmicroscopy", none)) :=
  (repo_lookup_failure_nonfatal (Except.ok "openmicroscopy") (Except.error "missing")
    "bioformats").1 "openmicroscopy" "missing" rfl rfl

/-- C9: `OME.info` reads the module-global `ome` instead of `self`, so the
pass constructed for a submodule prints the top-level candidates, not its
own storage: with top-level storage `[prTop]` and submodule storage
`[prSub]`, the submodule's info output is the rendering of `[prTop]`, which
differs from the rendering of its own `[prSub]`. -/
theorem info_uses_global_storage :
    infoOutput [prTop] [prSub] = infoLines [prTop]
      ∧ infoLines [prTop] ≠ infoLines [prSub] := by
  constructor
  · rfl
  · decide

/-- C4 counterexample: the qualifying pull request `prTestFoo` whose sole
comment is the line `--test integration/foo` contributes the side-file line
`" integration/foo"` — with its leading separator space — and the line
`"integration/foo"` claimed by the specification never appears. -/
theorem test_directive_counterexample :
    sideFileLines memberAll "develop" [] [] [prTestFoo] = [" integration/foo"]
      ∧ "integration/foo" ∉ sideFileLines memberAll "develop" [] [] [prTestFoo] := by
  constructor
  · rfl
  · decide

/-- C4 (amended): for every qualifying pull request, each comment line
beginning with `--test` is appended to the side file as that line with every
occurrence of `--test` removed — i.e. the remainder of the line including
its leading separator space (so `--test integration/foo` contributes
`" integration/foo"`) — and pull requests with no such lines contribute
nothing. -/
theorem test_directive_lines (m : String → Bool) (b : String) (incl excl : List String)
    (prs : List PRData) (d : PRData) (hd : d ∈ prs)
    (hq : prFound m b incl excl d = true) :
    (∀ c ∈ d.comments, ∀ l ∈ splitlines c, pyStartsWith "--test" l = true →
      pyRemoveAll "--test" l ∈ sideFileLines m b incl excl prs)
    ∧ ((∀ c ∈ d.comments, ∀ l ∈ splitlines c, pyStartsWith "--test" l = false) →
      d.test_directories = []) := by
  constructor
  · intro c hc l hl hstart
    unfold sideFileLines
    rw [List.mem_flatMap]
    refine ⟨d, List.mem_filter.mpr ⟨hd, hq⟩, ?_⟩
    unfold PRData.test_directories
    rw [List.mem_flatMap]
    exact ⟨c, hc, List.mem_map.mpr ⟨l, List.mem_filter.mpr ⟨hl, hstart⟩, rfl⟩⟩
  · intro hnone
    unfold PRData.test_directories
    rw [List.eq_nil_iff_forall_not_mem]
    intro x hx
    rw [List.mem_flatMap] at hx
    obtain ⟨c, hc, hx⟩ := hx
    rw [List.mem_map] at hx
    obtain ⟨l, hl, -⟩ := hx
    rw [List.mem_filter] at hl
    rw [hnone c hc l hl.1] at hl
    exact Bool.false_ne_true hl.2

/-- Witness for `test_directive_lines`: the directive line of `prTestFoo`
lands in the side file (as `" integration/foo"`, see the counterexample). -/
theorem test_directive_lines_witness :
    pyRemoveAll "--test" "--test integration/foo"
      ∈ sideFileLines memberAll "develop" [] [] [prTestFoo] :=
  (test_directive_lines memberAll "develop" [] [] [prTestFoo] prTestFoo
      (by decide) (by decide)).1
    "--test integration/foo" (by decide) "--test integration/foo" (by decide) (by decide)

theorem storage_perm (m : String → Bool) (b : String) (incl excl : List String)
    (prs : List PRData) :
    (storage m b incl excl prs).Perm (prs.filter (prFound m b incl excl)) :=
  List.mergeSort_perm _ _

theorem storage_sorted_ble (m : String → Bool) (b : String) (incl excl : List String)
    (prs : List PRData) :
    (storage m b incl excl prs).Pairwise fun a c => Nat.ble a.num c.num :=
  List.sorted_mergeSort
    (fun a c e h1 h2 => by
      simp only [Nat.ble_eq] at h1 h2 ⊢
      omega)
    (fun a c => by
      simp only [Bool.or_eq_true, Nat.ble_eq]
      omega)
    (prs.filter (prFound m b incl excl))

theorem storage_sorted_lt (m : String → Bool) (b : String) (incl excl : List String)
    (prs : List PRData)
    (hn : ((prs.filter (prFound m b incl excl)).map PRData.num).Nodup) :
    ((storage m b incl excl prs).map PRData.num).Sorted (· < ·) := by
  have hle : (storage m b incl excl prs).Pairwise fun a c => a.num ≤ c.num :=
    (storage_sorted_ble m b incl excl prs).imp fun h => by simpa [Nat.ble_eq] using h
  have hnd : ((storage m b incl excl prs).map PRData.num).Nodup :=
    (List.Perm.nodup_iff ((storage_perm m b incl excl prs).map PRData.num)).mpr hn
  have hne : (storage m b incl excl prs).Pairwise fun a c => a.num ≠ c.num :=
    List.pairwise_map.mp hnd
  rw [List.Sorted, List.pairwise_map]
  exact (hle.and hne).imp fun h => lt_of_le_of_ne h.1 h.2

/-- C2: a merge pass issues an add-remote then a fetch once per unique
author login of the qualifying pull requests (in whatever order the set
yields, here any permutation `users` of the unique logins), then one
`merge --no-ff` per qualifying pull request in strictly ascending
pull-request-number order, then one submodule update. -/
theorem merge_pass_sequence (m : String → Bool) (b name : String)
    (incl excl users : List String) (prs : List PRData)
    (hn : ((prs.filter (prFound m b incl excl)).map PRData.num).Nodup)
    (hu : users.Perm (uniqueLogins m b incl excl prs)) :
    mergeTrace users name (commitMsg b incl excl) (storage m b incl excl prs)
      = (users.flatMap fun u => [addRemoteCmd u name, fetchCmd u])
        ++ (storage m b incl excl prs).map (mergeCmd (commitMsg b incl excl))
        ++ [submoduleUpdateCmd]
    ∧ ((storage m b incl excl prs).map PRData.num).Sorted (· < ·)
    ∧ (storage m b incl excl prs).Perm (prs.filter (prFound m b incl excl))
    ∧ users.Nodup
    ∧ (∀ u, u ∈ users ↔ u ∈ (prs.filter (prFound m b incl excl)).map PRData.login) := by
  refine ⟨rfl, storage_sorted_lt m b incl excl prs hn, storage_perm m b incl excl prs,
    (List.Perm.nodup_iff hu).mpr (List.nodup_dedup _), fun u => ?_⟩
  rw [hu.mem_iff, uniqueLogins, List.mem_dedup]

/-- Witness for `merge_pass_sequence`: the claim's example — candidates
numbered `[7, 3, 5]` — is stored in strictly ascending number order and the
merge loop covers exactly the qualifying pull requests. -/
theorem merge_pass_sequence_witness :
    ((storage memberAll "develop" [] [] prs753).map PRData.num).Sorted (· < ·)
      ∧ (storage memberAll "develop" [] [] prs753).Perm
          (prs753.filter (prFound memberAll "develop" [] [])) := by
  have h := merge_pass_sequence memberAll "develop" "openmicroscopy" [] []
    (uniqueLogins memberAll "develop" [] [] prs753) prs753 (by decide) (List.Perm.refl _)
  exact ⟨h.2.1, h.2.2.1⟩

theorem cleanupRun_eq (ok : String → Bool) (reg : List String) :
    ∀ remotes : List String, reg.Nodup → (∀ k ∈ reg, k ∉ remotes) →
      cleanupRun reg ok (remotes ++ reg)
        = (reg, remotes ++ reg.filter fun k => !(ok k)) := by
  induction reg with
  | nil =>
    intro remotes _ _
    simp [cleanupRun]
  | cons k rest ih =>
    intro remotes hnd hdisj
    have hkr : k ∉ remotes := hdisj k (List.mem_cons_self k rest)
    have hkrest : k ∉ rest := (List.nodup_cons.mp hnd).1
    have hrest_nd : rest.Nodup := (List.nodup_cons.mp hnd).2
    unfold cleanupRun
    cases hok : ok k with
    | true =>
      have herase : (remotes ++ k :: rest).erase k = remotes ++ rest := by
        rw [List.erase_append_right _ hkr, List.erase_cons_head]
      simp only [hok, herase, eq_self_iff_true, if_true]
      rw [ih remotes hrest_nd fun x hx => hdisj x (List.mem_cons_of_mem _ hx)]
      simp [hok]
    | false =>
      simp only [hok, Bool.false_eq_true, if_false]
      rw [List.append_cons remotes k rest]
      rw [ih (remotes ++ [k]) hrest_nd fun x hx => by
        intro hmem
        rcases List.mem_append.mp hmem with h1 | h1
        · exact hdisj x (List.mem_cons_of_mem _ hx) h1
        · rw [List.mem_singleton] at h1
          subst h1
          exact hkrest hx]
      simp only [List.filter_cons, hok, Bool.not_false, eq_self_iff_true, if_true,
        ← List.append_cons]

/-- C3: after a merge pass interrupted at any point (after `j` users had
their remote added), cleanup attempts the removal of every registered
remote even when some removals fail, the remotes whose removal succeeded
are gone, and when every removal succeeds the git remote list is back to
its pre-pass state — no temporary remote survives. -/
theorem cleanup_after_pass (users : List String) (j : Nat) (ok : String → Bool)
    (remotes : List String)
    (h : (remotes ++ registryAt users j).Nodup) :
    (cleanupRun (registryAt users j) ok (remotes ++ registryAt users j)).1
        = registryAt users j
    ∧ (cleanupRun (registryAt users j) ok (remotes ++ registryAt users j)).2
        = remotes ++ (registryAt users j).filter (fun k => !(ok k))
    ∧ ((∀ k ∈ registryAt users j, ok k = true) →
        (cleanupRun (registryAt users j) ok (remotes ++ registryAt users j)).2 = remotes) := by
  obtain ⟨h1, h2, h3⟩ := List.nodup_append.mp h
  have key := cleanupRun_eq ok (registryAt users j) remotes h2 fun k hk hmem => h3 hmem hk
  refine ⟨by rw [key], by rw [key], fun hall => ?_⟩
  rw [key]
  have hfil : (registryAt users j).filter (fun k => !(ok k)) = [] := by
    rw [List.filter_eq_nil_iff]
    intro a ha
    simp [hall a ha]
  rw [hfil, List.append_nil]

/-- Fixture: every `git remote rm` succeeds. -/
def okAll : String → Bool := fun _ => true

/-- Witness for `cleanup_after_pass`: after a pass that added remotes for
`alice` and `bob` on top of `origin`, cleanup with all removals succeeding
leaves exactly `origin`. -/
theorem cleanup_after_pass_witness :
    (cleanupRun (registryAt ["alice", "bob"] 2) okAll
        (["origin"] ++ registryAt ["alice", "bob"] 2)).2 = ["origin"] :=
  (cleanup_after_pass ["alice", "bob"] 2 okAll ["origin"] (by decide)).2.2 (by decide)

mutual
theorem runNode_mods (m : String → Bool) (b : String) (incl excl : List String) :
    ∀ t : RepoTree, (runNode m b incl excl t).2 = totalMods m b incl excl t
  | .node name prs subs => by
    simp only [runNode, totalMods]
    rw [runForest_mods m b incl excl subs]
    simp [storage, List.length_mergeSort]

theorem runForest_mods (m : String → Bool) (b : String) (incl excl : List String) :
    ∀ ts : RepoForest, (runForest m b incl excl ts).2 = totalForest m b incl excl ts
  | .nil => by
    simp only [runForest, totalForest]
  | .cons t ts => by
    simp only [runForest, totalForest]
    rw [runNode_mods m b incl excl t, runForest_mods m b incl excl ts]
end

/-- C6: a repository level's command trace is its merge pass followed by the
whole submodule loop, followed by nothing when the accumulated modification
count of the level is zero and by exactly one aggregate commit — empty
payload allowed, hooks skipped, message derived from the base branch and
the include/exclude lists — when it is nonzero; and the threaded
`self.modifications` counter equals the structural count of qualifying pull
requests in the subtree. -/
theorem aggregate_commit_per_level (m : String → Bool) (b : String)
    (incl excl : List String) (t : RepoTree) :
    (runNode m b incl excl t).1
      = levelBody m b incl excl t
        ++ (if totalMods m b incl excl t = 0 then [] else [aggCommitCmd b incl excl])
    ∧ (runNode m b incl excl t).2 = totalMods m b incl excl t := by
  refine ⟨?_, runNode_mods m b incl excl t⟩
  obtain ⟨name, prs, subs⟩ := t
  have hmods := runNode_mods m b incl excl (.node name prs subs)
  simp only [runNode] at hmods
  simp only [runNode, levelBody]
  rw [hmods]

/-- C7: one iteration of the submodule loop — `cd` into the submodule, run
the body, and in the nested `finally` blocks run the cleanup and `cd` back —
leaves the working directory at the caller's saved `cwd`, whatever the body
and the cleanup do and whether or not either of them raises. -/
theorem cwd_restored (cwd dir : String) (body cleanup : Proc String) (s : String) :
    (subStep cwd dir body cleanup s).1 = cwd := by
  unfold subStep tryFinallyP pseq cdP
  rcases hb : body dir with ⟨s1, e1⟩
  rcases hc : cleanup s1 with ⟨s2, e2⟩
  cases e1 <;> cases e2 <;> simp [hb, hc]

end OmeMerge
